import Mathlib

set_option maxRecDepth 100000

/-!
Verification of the snapshot diffing and persistence engine of
`friedrich-jobs-report` (`src/application/utils.py`).

The development shallowly embeds the core functions of the source:
`append_hashid_col` (row hasher), `compare_tables` (diff engine),
`save_to_database` / `get_saved_data` (snapshot store),
`run_quote_check` (orchestration) and `format_to_html_summary`
(report formatter).  Cell values are modelled by `Value` (text,
integer, or null, matching the `str`/numeric/`NaN` values that
`pandas.read_excel` produces), a dataframe by its ordered column
names plus a list of rows, and the SQL-backed store by an optional
persisted dataframe (`none` = the `data` table was never created).
`hashlib.sha256` is embedded as a full executable SHA-256 over byte
lists, checked below against the standard test vectors.
-/

namespace Friedrich

/-- A cell value: text, integer, or the pandas null (`NaN`). -/
inductive Value : Type
  | str (s : String)
  | int (n : Int)
  | null
deriving DecidableEq, Repr

/-- Python `str()` applied to a cell value, as `append_hashid_col` and the
HTML formatter do.  A pandas missing value is a float `nan`, whose `str()`
is the literal `"nan"`. -/
def pyStr : Value → String
  | .str s => s
  | .int n => toString n
  | .null => "nan"

/-- The `pandas.isnull` on a single cell. -/
def Value.isNull : Value → Bool
  | .null => true
  | _ => false

/-! ## SHA-256 (embedding of `hashlib.sha256(...).hexdigest()`)

All recursion is structural so that the kernel can evaluate digests of
concrete strings. -/

/-- Truncation to 32 bits. -/
def mask32 (x : Nat) : Nat := x % 4294967296

/-- Right rotation of a 32-bit word. -/
def rotr (n x : Nat) : Nat := mask32 ((x >>> n) ||| (x <<< (32 - n)))

def bigSigma0 (x : Nat) : Nat := rotr 2 x ^^^ rotr 13 x ^^^ rotr 22 x

def bigSigma1 (x : Nat) : Nat := rotr 6 x ^^^ rotr 11 x ^^^ rotr 25 x

def smallSigma0 (x : Nat) : Nat := rotr 7 x ^^^ rotr 18 x ^^^ (x >>> 3)

def smallSigma1 (x : Nat) : Nat := rotr 17 x ^^^ rotr 19 x ^^^ (x >>> 10)

def chFn (x y z : Nat) : Nat := (x &&& y) ^^^ ((x ^^^ 4294967295) &&& z)

def majFn (x y z : Nat) : Nat := (x &&& y) ^^^ (x &&& z) ^^^ (y &&& z)

/-- The 64 SHA-256 round constants (FIPS 180-4). -/
def sha256K : List Nat :=
  [1116352408, 1899447441, 3049323471, 3921009573, 961987163, 1508970993,
   2453635748, 2870763221, 3624381080, 310598401, 607225278, 1426881987,
   1925078388, 2162078206, 2614888103, 3248222580, 3835390401, 4022224774,
   264347078, 604807628, 770255983, 1249150122, 1555081692, 1996064986,
   2554220882, 2821834349, 2952996808, 3210313671, 3336571891, 3584528711,
   113926993, 338241895, 666307205, 773529912, 1294757372, 1396182291,
   1695183700, 1986661051, 2177026350, 2456956037, 2730485921, 2820302411,
   3259730800, 3345764771, 3516065817, 3600352804, 4094571909, 275423344,
   430227734, 506948616, 659060556, 883997877, 958139571, 1322822218,
   1537002063, 1747873779, 1955562222, 2024104815, 2227730452, 2361852424,
   2428436474, 2756734187, 3204031479, 3329325298]

/-- The SHA-256 initial hash value (FIPS 180-4). -/
def sha256H0 : List Nat :=
  [1779033703, 3144134277, 1013904242, 2773480762, 1359893119, 2600822924,
   528734635, 1541459225]

/-- Big-endian bytes of `n`, `k` bytes wide. -/
def beBytes : Nat → Nat → List Nat
  | 0, _ => []
  | k + 1, n => (n >>> (8 * k)) % 256 :: beBytes k n

/-- SHA-256 padding: append `0x80`, zero bytes up to 56 mod 64, then the
64-bit big-endian bit length. -/
def padMsg (msg : List Nat) : List Nat :=
  msg ++ 128 :: List.replicate ((55 + 64 - msg.length % 64) % 64) 0
    ++ beBytes 8 (8 * msg.length)

/-- Pack big-endian bytes into 32-bit words, four at a time. -/
def bytesToWords : List Nat → List Nat
  | b0 :: b1 :: b2 :: b3 :: rest =>
      ((b0 <<< 24) + (b1 <<< 16) + (b2 <<< 8) + b3) :: bytesToWords rest
  | _ => []

/-- Split a word list into blocks of 16 words (one 512-bit block each). -/
def words16 : List Nat → List (List Nat)
  | w0 :: w1 :: w2 :: w3 :: w4 :: w5 :: w6 :: w7 ::
    w8 :: w9 :: w10 :: w11 :: w12 :: w13 :: w14 :: w15 :: rest =>
      [w0, w1, w2, w3, w4, w5, w6, w7, w8, w9, w10, w11, w12, w13, w14, w15]
        :: words16 rest
  | _ => []

/-- Extend the 16-word block by `fuel` additional schedule words. -/
def extendWords : Nat → List Nat → List Nat
  | 0, acc => acc
  | fuel + 1, acc =>
      let l := acc.length
      let w := mask32 (smallSigma1 (acc.getD (l - 2) 0) + acc.getD (l - 7) 0
        + smallSigma0 (acc.getD (l - 15) 0) + acc.getD (l - 16) 0)
      extendWords fuel (acc ++ [w])

/-- One compression round; the state is the 8-word list `[a,b,c,d,e,f,g,h]`. -/
def sha256Round (st : List Nat) (kw : Nat × Nat) : List Nat :=
  let a := st.getD 0 0
  let b := st.getD 1 0
  let c := st.getD 2 0
  let d := st.getD 3 0
  let e := st.getD 4 0
  let f := st.getD 5 0
  let g := st.getD 6 0
  let h := st.getD 7 0
  let t1 := mask32 (h + bigSigma1 e + chFn e f g + kw.1 + kw.2)
  let t2 := mask32 (bigSigma0 a + majFn a b c)
  [mask32 (t1 + t2), a, b, c, mask32 (d + t1), e, f, g]

/-- Process one 512-bit block: schedule, 64 rounds, then add to the chaining
value. -/
def sha256Block (h : List Nat) (block : List Nat) : List Nat :=
  let w := extendWords 48 block
  let st := (sha256K.zip w).foldl sha256Round h
  (h.zip st).map fun p => mask32 (p.1 + p.2)

/-- Hex digit character for `d < 16` (lowercase, as Python's `hexdigest`). -/
def hexDigit (d : Nat) : Char :=
  if d < 10 then Char.ofNat (48 + d) else Char.ofNat (87 + d)

/-- Lowercase hex rendering of a 32-bit word, 8 digits. -/
def wordToHex (n : Nat) : List Char :=
  [hexDigit (n >>> 28 % 16), hexDigit (n >>> 24 % 16), hexDigit (n >>> 20 % 16),
   hexDigit (n >>> 16 % 16), hexDigit (n >>> 12 % 16), hexDigit (n >>> 8 % 16),
   hexDigit (n >>> 4 % 16), hexDigit (n % 16)]

/-- SHA-256 hex digest of a byte list. -/
def sha256BytesHex (msg : List Nat) : String :=
  let final := (words16 (bytesToWords (padMsg msg))).foldl sha256Block sha256H0
  ⟨(final.map wordToHex).flatten⟩

/-- UTF-8 encoding of one character (Python `str.encode()` default). -/
def utf8Char (c : Char) : List Nat :=
  let n := c.toNat
  if n < 128 then [n]
  else if n < 2048 then [192 ||| (n >>> 6), 128 ||| (n % 64)]
  else if n < 65536 then
    [224 ||| (n >>> 12), 128 ||| ((n >>> 6) % 64), 128 ||| (n % 64)]
  else
    [240 ||| (n >>> 18), 128 ||| ((n >>> 12) % 64), 128 ||| ((n >>> 6) % 64),
     128 ||| (n % 64)]

/-- UTF-8 bytes of a string, as Python's `str.encode()`. -/
def utf8Bytes (s : String) : List Nat := s.data.flatMap utf8Char

/-- The `sha256(s.encode()).hexdigest()`. -/
def sha256hex (s : String) : String := sha256BytesHex (utf8Bytes s)

/-! ## Dataframes and the row hasher (`append_hashid_col`) -/

/-- A pandas dataframe: ordered column names and rows of cells.  Rows are
well-formed when each has exactly `cols.length` cells. -/
@[ext]
structure DataFrame where
  cols : List String
  rows : List (List Value)
deriving DecidableEq, Repr

/-- The `pandas.DataFrame.empty`: true when either axis has length zero. -/
def DataFrame.isEmpty (df : DataFrame) : Bool :=
  df.rows.isEmpty || df.cols.isEmpty

/-- The `row.at[t]`: the cell of the first column named `t` (pandas raises on a
missing label; the `Value.null` default is only reached on inputs where the
source would have raised, and every theorem below guards against that). -/
def getVal : List String → List Value → String → Value
  | c :: cs, v :: vs, t => if c = t then v else getVal cs vs t
  | _, _, _ => .null

/-- The `func` inside `append_hashid_col`: `str()` every cell in column
order, concatenate with no separator, and take the SHA-256 hex digest. -/
def rowFingerprint (cols : List String) (row : List Value) : String :=
  sha256hex (String.join (cols.map fun c => pyStr (getVal cols row c)))

/-- The `append_hashid_col`: copy the frame and append a `hashid` column holding
each row's fingerprint. -/
def append_hashid_col (df : DataFrame) : DataFrame :=
  ⟨df.cols ++ ["hashid"],
   df.rows.map fun r => r ++ [Value.str (rowFingerprint df.cols r)]⟩

/-! ## Snapshot store (`save_to_database` / `get_saved_data`)

The SQL database holds at most one `data` table; `none` models a store in
which `save_to_database` has never run, so the table does not exist and
`SELECT * FROM data` raises. -/

/-- The persisted state: the `data` table's contents, if the table exists. -/
abbrev Store := Option DataFrame

/-- The `save_to_database`: `to_sql(..., if_exists='replace', index=False)` fully
rewrites the table with the given frame, whatever was there before. -/
def save_to_database (data : DataFrame) (_st : Store) : Store := some data

/-- The `get_saved_data`: `SELECT * FROM data` returns the persisted frame, and
raises a database error when the table was never created. -/
def get_saved_data : Store → Except String DataFrame
  | some df => .ok df
  | none => .error "StoreReadError: relation data does not exist"

/-! ## Diff engine (`compare_tables`) -/

/-- Python `s.replace(pat, repl)` on character lists, replacing every
occurrence left to right.  The fuel argument only bounds the recursion;
`pyReplace` passes the list length, which always suffices. -/
def replaceFuel (pat repl : List Char) : Nat → List Char → List Char
  | _, [] => []
  | 0, s => s
  | fuel + 1, c :: rest =>
      if pat.isPrefixOf (c :: rest) then
        repl ++ replaceFuel pat repl fuel ((c :: rest).drop pat.length)
      else c :: replaceFuel pat repl fuel rest

/-- Python `s.replace(pat, repl)` for a non-empty pattern. -/
def pyReplace (s pat repl : String) : String :=
  ⟨replaceFuel pat.data repl.data s.data.length s.data⟩

/-- The `df.set_index(c)`: move column `c` out of the columns and use its cells
as the row index.  (Pandas raises on a missing label; `compare_tables`
checks membership before calling this.) -/
def setIndex (df : DataFrame) (c : String) :
    List String × List (Value × List Value) :=
  let i := df.cols.indexOf c
  (df.cols.eraseIdx i, df.rows.map fun r => (r.getD i Value.null, r.eraseIdx i))

/-- Column names of `left.join(right, lsuffix="_left", rsuffix="_right")`:
left columns then right columns, suffixing exactly the overlapping names. -/
def joinCols (lcols rcols : List String) : List String :=
  (lcols.map fun c => if c ∈ rcols then c ++ "_left" else c)
    ++ (rcols.map fun c => if c ∈ lcols then c ++ "_right" else c)

/-- Rows of `new.join(old, how="left")` on the index: one output row per
left row when unmatched (right cells null), one per matching right row
otherwise. -/
def leftJoinRows (padLen : Nat) (lrows rrows : List (Value × List Value)) :
    List (Value × List Value) :=
  lrows.flatMap fun p =>
    if (rrows.filter fun q => q.1 == p.1).isEmpty then
      [(p.1, p.2 ++ List.replicate padLen Value.null)]
    else (rrows.filter fun q => q.1 == p.1).map fun q => (p.1, p.2 ++ q.2)

/-- Rows of `new.join(old, how="right")` on the index: one output row per
right row when unmatched (left cells null), one per matching left row
otherwise. -/
def rightJoinRows (padLen : Nat) (lrows rrows : List (Value × List Value)) :
    List (Value × List Value) :=
  rrows.flatMap fun q =>
    if (lrows.filter fun p => p.1 == q.1).isEmpty then
      [(q.1, List.replicate padLen Value.null ++ q.2)]
    else (lrows.filter fun p => p.1 == q.1).map fun p => (q.1, p.2 ++ q.2)

/-- The `df.loc[:, tgt]`: project a row onto the named target columns. -/
def projRow (cols : List String) (row : List Value) (tgt : List String) :
    List Value :=
  tgt.map fun c => getVal cols row c

/-- The value `compare_tables` returns: a dict whose `"Added"` and
`"Removed"` keys are each present only when non-empty. -/
structure DiffResult where
  added : Option DataFrame
  removed : Option DataFrame
deriving DecidableEq, Repr

/-- The empty dict `{}`. -/
def emptyDiff : DiffResult := ⟨none, none⟩

/-- The `output_columns`: the new table's columns with (the first) `hashid`
removed, as `list.remove` does. -/
def outputColumns (new : DataFrame) : List String := new.cols.erase "hashid"

/-- The column names of a frame after `set_index('hashid')`. -/
def dataCols (df : DataFrame) : List String := (setIndex df "hashid").1

/-- The `hashid`-keyed rows of a frame after `set_index('hashid')`. -/
def keyedRows (df : DataFrame) : List (Value × List Value) :=
  (setIndex df "hashid").2

/-- The `left_join = new_table_cp.join(old_table, how="left", ...)`: rows. -/
def leftJoined (new old : DataFrame) : List (Value × List Value) :=
  leftJoinRows (dataCols old).length (keyedRows new) (keyedRows old)

/-- The `right_join = new_table_cp.join(old_table, how="right", ...)`: rows. -/
def rightJoined (new old : DataFrame) : List (Value × List Value) :=
  rightJoinRows (dataCols new).length (keyedRows new) (keyedRows old)

/-- The suffixed column names shared by `left_join` and `right_join`. -/
def ljColumns (new old : DataFrame) : List String :=
  joinCols (dataCols new) (dataCols old)

/-- The `left_join_columns_fixed`: every column name with `_left` erased. -/
def ljColsFixed (new old : DataFrame) : List String :=
  (ljColumns new old).map fun c => pyReplace c "_left" ""

/-- The `right_join_columns_fixed`: every column name with `_right` erased. -/
def rjColsFixed (new old : DataFrame) : List String :=
  (ljColumns new old).map fun c => pyReplace c "_right" ""

/-- The `left_not_right`: left-join rows whose `Project Name_right` is null. -/
def leftNotRight (new old : DataFrame) : List (Value × List Value) :=
  (leftJoined new old).filter fun p =>
    (getVal (ljColumns new old) p.2 "Project Name_right").isNull

/-- The `right_not_left`: right-join rows whose `Project Name_left` is null. -/
def rightNotLeft (new old : DataFrame) : List (Value × List Value) :=
  (rightJoined new old).filter fun p =>
    (getVal (ljColumns new old) p.2 "Project Name_left").isNull

/-- The `added = left_not_right.loc[:, output_columns]`. -/
def addedFrame (new old : DataFrame) : DataFrame :=
  ⟨outputColumns new,
   (leftNotRight new old).map fun p =>
     projRow (ljColsFixed new old) p.2 (outputColumns new)⟩

/-- The `removed = right_not_left.loc[:, output_columns]`. -/
def removedFrame (new old : DataFrame) : DataFrame :=
  ⟨outputColumns new,
   (rightNotLeft new old).map fun p =>
     projRow (rjColsFixed new old) p.2 (outputColumns new)⟩

/-- The `compare_tables(new_table)`: read the saved table, join the two frames
on the `hashid` index both ways, keep the rows whose other-side
`Project Name` is null, restore the suffixed column names, project onto the
original non-`hashid` columns, and return the dict holding each result only
when non-empty.  Each `.error` branch marks a point where the Python raises
(`list.remove`, `set_index`, or indexing on a missing column label). -/
def compare_tables (new_table : DataFrame) (st : Store) :
    Except String DiffResult :=
  if "hashid" ∈ new_table.cols then
    match get_saved_data st with
    | .error e => .error e
    | .ok old_table =>
      if "hashid" ∈ old_table.cols then
        if "Project Name_right" ∈ ljColumns new_table old_table
            ∧ "Project Name_left" ∈ ljColumns new_table old_table
            ∧ (outputColumns new_table).all
                (fun c => (ljColsFixed new_table old_table).contains c)
            ∧ (outputColumns new_table).all
                (fun c => (rjColsFixed new_table old_table).contains c) then
          let added := addedFrame new_table old_table
          let removed := removedFrame new_table old_table
          .ok ⟨if added.isEmpty then none else some added,
               if removed.isEmpty then none else some removed⟩
        else .error "KeyError: column label not found"
      else .error "KeyError: hashid"
  else .error "ValueError: list.remove(x): x not in list"

/-! ## Orchestration (`run_quote_check`)

The ingested frame (`get_data()`, the excluded Ingestion collaborator) is a
parameter.  The returned boolean records whether `compare_tables` — the
diff engine — was executed during the run. -/

/-- The `run_quote_check`: hash the fresh data; on an empty saved table persist
it and return `{}` without diffing, otherwise diff, then persist. -/
def run_quote_check (raw : DataFrame) (st : Store) :
    Except String (DiffResult × Store × Bool) :=
  let new_table := append_hashid_col raw
  match get_saved_data st with
  | .error e => .error e
  | .ok saved =>
    if saved.isEmpty then
      .ok (emptyDiff, save_to_database new_table st, false)
    else
      match compare_tables new_table st with
      | .error e => .error e
      | .ok diffs => .ok (diffs, save_to_database new_table st, true)

/-! ## Report formatter (`format_to_html_summary`) -/

/-- The columns projected and deduplicated to form the project groups. -/
def project_col_names : List String :=
  ["Rep Name", "Project Name", "Project City", "Project State", "Quote Name",
   "Create Date", "Quote Status"]

/-- The columns shown in each group's detail table. -/
def detail_col_names : List String :=
  ["Product Group", "Product SKU", "Product Quantity", "Product Total Amount"]

/-- The `drop_duplicates()`: keep the first occurrence of each row, in order.
`seen` accumulates the rows already kept. -/
def dropDupsSeen (seen : List (List Value)) :
    List (List Value) → List (List Value)
  | [] => []
  | x :: xs =>
      if x ∈ seen then dropDupsSeen seen xs
      else x :: dropDupsSeen (x :: seen) xs

/-- Pandas `==` on cells, as in `df['c'] == v`: a null compares unequal to
everything, itself included (`NaN != NaN`); values of different kinds
compare unequal. -/
def pandasEq : Value → Value → Bool
  | .str a, .str b => a == b
  | .int a, .int b => a == b
  | _, _ => false

/-- The boolean mask of the detail selection: the source filters on the five
identity columns only — `Create Date` and `Quote Status` are part of the
group tuple but not of the filter. -/
def matchesGroup (cols : List String) (g : List Value) (row : List Value) :
    Bool :=
  pandasEq (getVal cols row "Rep Name") (g.getD 0 Value.null)
    && pandasEq (getVal cols row "Project Name") (g.getD 1 Value.null)
    && pandasEq (getVal cols row "Project City") (g.getD 2 Value.null)
    && pandasEq (getVal cols row "Project State") (g.getD 3 Value.null)
    && pandasEq (getVal cols row "Quote Name") (g.getD 4 Value.null)

/-- The groups and their detail rows, exactly as the source's loop visits
them: the deduplicated projections onto `project_col_names` in first-seen
order, each paired with the matching rows projected onto
`detail_col_names` in original order. -/
def summaryBlocks (df : DataFrame) :
    List (List Value × List (List Value)) :=
  (dropDupsSeen [] (df.rows.map fun r => projRow df.cols r project_col_names)).map
    fun g =>
      (g, (df.rows.filter fun r => matchesGroup df.cols g r).map
            fun r => projRow df.cols r detail_col_names)

/-- The styled `<span>` opening tag used by every header line. -/
def spanOpen : String := "<span style=\"font-weight: lighter\">"

/-- The header block of one project group (the source's f-string; the
continuation-line whitespace inside the literal is not reproduced). -/
def projectHtml (g : List Value) : String :=
  "<hr><h3>Customer: " ++ spanOpen ++ pyStr (g.getD 0 Value.null) ++ "</span>\n"
    ++ "<h3>Project Location: " ++ spanOpen ++ pyStr (g.getD 2 Value.null)
    ++ ", " ++ pyStr (g.getD 3 Value.null) ++ "</span>\n"
    ++ "<h3>Name: " ++ spanOpen ++ pyStr (g.getD 1 Value.null) ++ "</span>\n"
    ++ "<h3>Quote Name: " ++ spanOpen ++ pyStr (g.getD 4 Value.null) ++ "</span>\n"
    ++ "<h3>Date Created: " ++ spanOpen ++ pyStr (g.getD 5 Value.null) ++ "</span>"
    ++ "<h3>Status: " ++ spanOpen ++ pyStr (g.getD 6 Value.null) ++ "</span>"

/-- One `<td>` cell of the detail table. -/
def cellHtml (v : Value) : String := "<td>" ++ pyStr v ++ "</td>"

/-- One `<tr>` row of the detail table. -/
def rowHtml (r : List Value) : String :=
  "<tr>" ++ String.join (r.map cellHtml) ++ "</tr>"

/-- The `records.to_html(index=False)` (markup abbreviated to a plain table;
the claims below depend only on which groups and rows are rendered). -/
def tableHtml (cols : List String) (rows : List (List Value)) : String :=
  "<table><thead><tr>" ++ String.join (cols.map fun c => "<th>" ++ c ++ "</th>")
    ++ "</tr></thead><tbody>" ++ String.join (rows.map rowHtml)
    ++ "</tbody></table>"

/-- The `format_to_html_summary`: the concatenation of header plus detail table
plus `<br>` over the project groups in first-seen order. -/
def format_to_html_summary (df : DataFrame) : String :=
  String.join ((summaryBlocks df).map
    fun b => projectHtml b.1 ++ tableHtml detail_col_names b.2 ++ "<br>")

/-! ## Specification-side definitions

These follow the spec's words, for comparison with the pipeline above. -/

/-- The fingerprint column of a snapshot, one entry per record. -/
def specFingerprints (df : DataFrame) : List Value :=
  df.rows.map fun r => getVal df.cols r "hashid"

/-- Following the spec (§4.3): the records whose fingerprint appears in
`new` but not in `old`, in order, projected onto the data columns. -/
def specAddedRecords (new old : DataFrame) : List (List Value) :=
  (new.rows.filter fun r =>
      decide (getVal new.cols r "hashid" ∉ specFingerprints old)).map
    fun r => projRow new.cols r (outputColumns new)

/-- Following the spec (§4.3): the records whose fingerprint appears in
`old` but not in `new`, in order, projected onto the data columns. -/
def specRemovedRecords (new old : DataFrame) : List (List Value) :=
  (old.rows.filter fun r =>
      decide (getVal old.cols r "hashid" ∉ specFingerprints new)).map
    fun r => projRow old.cols r (outputColumns new)

/-- Following the spec (§4.4): the distinct group keys in first-seen order,
stated as a left fold that appends each unseen key. -/
def specDedup (l : List (List Value)) : List (List Value) :=
  l.foldl (fun acc k => if k ∈ acc then acc else acc ++ [k]) []

/-! ## Column-name hygiene

`compare_tables` restores the suffixed join columns with Python's
`str.replace`, which rewrites every occurrence of `_left` / `_right`
anywhere in a name.  The characterization theorems therefore assume no
source column name contains either suffix as a substring (true of the
Friedrich schema). -/

/-- Whether `pat` occurs as a contiguous substring. -/
def containsSub (pat : List Char) : List Char → Bool
  | [] => pat.isEmpty
  | c :: rest => pat.isPrefixOf (c :: rest) || containsSub pat rest

/-- A column name free of the `_left` and `_right` join suffixes. -/
def cleanName (c : String) : Bool :=
  !containsSub "_left".data c.data && !containsSub "_right".data c.data

/-- The `pat` cannot straddle a boundary against itself: no non-trivial prefix
of `pat` is also a suffix of `pat` (checked by `decide` for the two
concrete suffixes). -/
def noSelfOverlap (pat : List Char) : Bool :=
  (List.range pat.length).all fun m =>
    decide (m = 0) || decide (pat.drop m ≠ pat.take (pat.length - m))

/-! ## Concrete frames used by the witnesses and counterexamples -/

/-- The spec's §8 example, new side: `{A(name="X"), C(name="Z")}`. -/
def sampleNew : DataFrame :=
  ⟨["Project Name", "hashid"],
   [[Value.str "X", Value.str "hA"], [Value.str "Z", Value.str "hC"]]⟩

/-- The spec's §8 example, old side: `{A(name="X"), B(name="Y")}`. -/
def sampleOld : DataFrame :=
  ⟨["Project Name", "hashid"],
   [[Value.str "X", Value.str "hA"], [Value.str "Y", Value.str "hB"]]⟩

/-- A one-record ingested table whose `Project Name` is missing. -/
def nullNameRaw : DataFrame := ⟨["Project Name"], [[Value.null]]⟩

/-- Its fingerprinted snapshot (fingerprint = SHA-256 of `"nan"`). -/
def nullNameSnap : DataFrame := append_hashid_col nullNameRaw

/-- Another ingested table with a missing `Project Name`, two columns. -/
def nullNameRaw2 : DataFrame :=
  ⟨["Project Name", "Quote Amount"], [[Value.null, Value.int 5]]⟩

/-- Its fingerprinted snapshot (fingerprint = SHA-256 of `"nan5"`). -/
def nullNameSnap2 : DataFrame := append_hashid_col nullNameRaw2

/-- An ingested table holding two structurally identical records. -/
def dupRaw : DataFrame :=
  ⟨["Project Name"], [[Value.str "P"], [Value.str "P"]]⟩

/-- A one-record ingested table for the first-run scenario. -/
def firstRunRaw : DataFrame := ⟨["Project Name"], [[Value.str "P1"]]⟩

/-- A persisted `data` table with columns but no rows (the state after a
run whose ingested table was empty). -/
def emptySaved : DataFrame := ⟨["Project Name", "hashid"], []⟩

/-- Two report records agreeing on the five identity columns but differing
in `Quote Status`. -/
def statusDf : DataFrame :=
  ⟨["Rep Name", "Project Name", "Project City", "Project State", "Quote Name",
    "Create Date", "Quote Status", "Product Group", "Product SKU",
    "Product Quantity", "Product Total Amount"],
   [[Value.str "R", Value.str "P", Value.str "C", Value.str "S", Value.str "Q",
     Value.str "D", Value.str "approved", Value.str "G1", Value.str "sku1",
     Value.int 1, Value.int 100],
    [Value.str "R", Value.str "P", Value.str "C", Value.str "S", Value.str "Q",
     Value.str "D", Value.str "pending", Value.str "G2", Value.str "sku2",
     Value.int 2, Value.int 200]]⟩

/-! # Theorems -/

/-- FIPS 180-4 test vector: digest of the empty message. -/
theorem sha256hex_empty :
    sha256hex "" =
      "e3b0c44298fc1c149afbf4c8996fb92427ae41e4649b934ca495991b7852b855" := by
  decide

/-- FIPS 180-4 test vector: digest of `"abc"`. -/
theorem sha256hex_abc :
    sha256hex "abc" =
      "ba7816bf8f01cfea414140de5dae2223b00361a396177a9cb410ff61f20015ad" := by
  decide

/-! ### String-replacement lemmas

These pin down `str.replace` on the suffixed join column names. -/

/-- A prefix of `a ++ b` either fits inside `a` or splits across the
boundary. -/
theorem isPrefixOf_append_cases (pat a b : List Char)
    (h : pat.isPrefixOf (a ++ b) = true) :
    (pat.length ≤ a.length ∧ pat.isPrefixOf a = true)
      ∨ (a.length < pat.length ∧ pat.take a.length = a
          ∧ (pat.drop a.length).isPrefixOf b = true) := by
  rw [ List.isPrefixOf_iff_prefix] at h
  have hpat := List.prefix_iff_eq_take.mp h
  rw [List.take_append_eq_append_take] at hpat
  by_cases hle : pat.length ≤ a.length
  · left
    refine ⟨hle, ?_⟩
    rw [ List.isPrefixOf_iff_prefix]
    rw [Nat.sub_eq_zero_of_le hle, List.take_zero, List.append_nil] at hpat
    rw [hpat]
    exact List.take_prefix _ _
  · right
    push_neg at hle
    rw [List.take_of_length_le (le_of_lt hle)] at hpat
    refine ⟨hle, ?_, ?_⟩
    · rw [hpat, List.take_left]
    · rw [ List.isPrefixOf_iff_prefix, hpat, List.drop_left]
      have := List.take_prefix (pat.length - a.length) b
      simpa using this

/-- If `pat` occurs nowhere in `s`, replacement leaves `s` unchanged. -/
theorem replaceFuel_of_not_contains (pat repl s : List Char) (fuel : Nat)
    (h : containsSub pat s = false) :
    replaceFuel pat repl fuel s = s := by
  induction s generalizing fuel with
  | nil => cases fuel <;> rfl
  | cons c rest ih =>
    rw [containsSub, Bool.or_eq_false_iff] at h
    obtain ⟨h1, h2⟩ := h
    cases fuel with
    | zero => rfl
    | succ f => simp [replaceFuel, h1, ih f h2]

/-- Replacing `pat` by nothing inside `pat` itself erases it. -/
theorem replaceFuel_self (pat : List Char) (fuel : Nat)
    (hne : pat ≠ []) (hfuel : 0 < fuel) :
    replaceFuel pat [] fuel pat = [] := by
  cases pat with
  | nil => exact absurd rfl hne
  | cons pc prest =>
    cases fuel with
    | zero => omega
    | succ f =>
      have hpref : (pc :: prest).isPrefixOf (pc :: prest) = true := by
        rw [ List.isPrefixOf_iff_prefix]
      simp [replaceFuel, hpref, List.drop_length]

/-- The value of `noSelfOverlap`, unpacked. -/
theorem noSelfOverlap_spec (pat : List Char) (h : noSelfOverlap pat = true)
    (m : Nat) (h0 : 0 < m) (hm : m < pat.length) :
    pat.drop m ≠ pat.take (pat.length - m) := by
  unfold noSelfOverlap at h
  rw [List.all_eq_true] at h
  have := h m (List.mem_range.mpr hm)
  rw [Bool.or_eq_true] at this
  rcases this with h' | h'
  · exact absurd (of_decide_eq_true h') (Nat.pos_iff_ne_zero.mp h0)
  · exact of_decide_eq_true h'

/-- Replacing a non-overlapping `pat` by nothing in `s ++ pat` strips the
suffix, provided `pat` occurs nowhere in `s`. -/
theorem replaceFuel_strip (pat : List Char) (hne : pat ≠ [])
    (hov : noSelfOverlap pat = true) (s : List Char) (fuel : Nat)
    (hno : containsSub pat s = false) (hfuel : s.length < fuel) :
    replaceFuel pat [] fuel (s ++ pat) = s := by
  induction s generalizing fuel with
  | nil =>
    rw [List.nil_append]
    exact replaceFuel_self pat fuel hne (by omega)
  | cons c s' ih =>
    rw [containsSub, Bool.or_eq_false_iff] at hno
    obtain ⟨h1, h2⟩ := hno
    cases fuel with
    | zero => omega
    | succ f =>
      have hpref : pat.isPrefixOf ((c :: s') ++ pat) = false := by
        by_contra hcon
        rw [Bool.not_eq_false] at hcon
        rcases isPrefixOf_append_cases pat (c :: s') pat hcon with
          ⟨_, hpf⟩ | ⟨hlt, htake, hdrop⟩
        · exact absurd hpf (by simp [h1])
        · have hlen : (pat.drop (c :: s').length).length
              = pat.length - (c :: s').length := List.length_drop _ _
          rw [ List.isPrefixOf_iff_prefix] at hdrop
          have := List.prefix_iff_eq_take.mp hdrop
          rw [hlen] at this
          exact noSelfOverlap_spec pat hov (c :: s').length (by simp)
            hlt this
      rw [List.cons_append] at hpref ⊢
      simp only [replaceFuel, hpref, Bool.false_eq_true, if_false]
      rw [← List.cons_append] at hpref
      have : replaceFuel pat [] f (s' ++ pat) = s' :=
        ih f h2 (by simp at hfuel; omega)
      rw [this]

/-- The `pat` does not occur in `a ++ b` when it occurs in neither part and no
proper tail of `pat` begins `b`. -/
theorem containsSub_append_false (pat a b : List Char)
    (ha : containsSub pat a = false) (hb : containsSub pat b = false)
    (hstr : ∀ m, 0 < m → m < pat.length → (pat.drop m).isPrefixOf b = false) :
    containsSub pat (a ++ b) = false := by
  induction a with
  | nil => simpa using hb
  | cons c a' ih =>
    rw [containsSub, Bool.or_eq_false_iff] at ha
    obtain ⟨h1, h2⟩ := ha
    rw [List.cons_append, containsSub, Bool.or_eq_false_iff]
    constructor
    · by_contra hcon
      rw [Bool.not_eq_false] at hcon
      rw [← List.cons_append] at hcon
      rcases isPrefixOf_append_cases pat (c :: a') b hcon with
        ⟨_, hpf⟩ | ⟨hlt, _, hdrop⟩
      · exact absurd hpf (by simp [h1])
      · have hfalse := hstr (c :: a').length (by simp) hlt
        rw [hfalse] at hdrop
        exact absurd hdrop (by simp)
    · exact ih h2

/-- The `pat` occurs in `a ++ pat`. -/
theorem containsSub_append_self (pat a : List Char) :
    containsSub pat (a ++ pat) = true := by
  induction a with
  | nil =>
    rw [List.nil_append]
    cases pat with
    | nil => rfl
    | cons pc prest =>
      rw [containsSub]
      have : (pc :: prest).isPrefixOf (pc :: prest) = true := by
        rw [ List.isPrefixOf_iff_prefix]
      simp [this]
  | cons c a' ih =>
    rw [List.cons_append, containsSub, ih]
    simp

/-- The `str.replace` is the identity on a string not containing the pattern. -/
theorem pyReplace_of_not_contains (s pat repl : String)
    (h : containsSub pat.data s.data = false) :
    pyReplace s pat repl = s := by
  unfold pyReplace
  rw [replaceFuel_of_not_contains _ _ _ _ h]

/-- The `str.replace` strips a freshly appended non-overlapping suffix. -/
theorem pyReplace_strip (c pat : String) (hne : pat.data ≠ [])
    (hov : noSelfOverlap pat.data = true)
    (h : containsSub pat.data c.data = false) :
    pyReplace (c ++ pat) pat "" = c := by
  unfold pyReplace
  have hdata : (c ++ pat).data = c.data ++ pat.data := String.data_append c pat
  have h0 : "".data = ([] : List Char) := rfl
  rw [hdata, h0, replaceFuel_strip pat.data hne hov c.data _ h ?hf]
  case hf =>
    rw [List.length_append]
    have := List.length_pos.mpr hne
    omega

/-- No proper tail of `_left` begins `_right`. -/
theorem noStraddle_left_right :
    ∀ m, 0 < m → m < "_left".data.length →
      ("_left".data.drop m).isPrefixOf "_right".data = false := by
  intro m h0 hm
  have h5 : "_left".data.length = 5 := rfl
  rw [h5] at hm
  interval_cases m <;> decide

/-- No proper tail of `_right` begins `_left`. -/
theorem noStraddle_right_left :
    ∀ m, 0 < m → m < "_right".data.length →
      ("_right".data.drop m).isPrefixOf "_left".data = false := by
  intro m h0 hm
  have h6 : "_right".data.length = 6 := rfl
  rw [h6] at hm
  interval_cases m <;> decide

/-- A clean name is free of `_left` occurrences. -/
theorem cleanName_no_left (c : String) (h : cleanName c = true) :
    containsSub "_left".data c.data = false := by
  unfold cleanName at h
  rw [Bool.and_eq_true] at h
  simpa using h.1

/-- A clean name is free of `_right` occurrences. -/
theorem cleanName_no_right (c : String) (h : cleanName c = true) :
    containsSub "_right".data c.data = false := by
  unfold cleanName at h
  rw [Bool.and_eq_true] at h
  simpa using h.2

/-- Erasing `_left` from `c_left` restores `c`. -/
theorem pyReplace_strip_left (c : String) (h : cleanName c = true) :
    pyReplace (c ++ "_left") "_left" "" = c :=
  pyReplace_strip c "_left" (by decide) (by decide) (cleanName_no_left c h)

/-- Erasing `_right` from `c_right` restores `c`. -/
theorem pyReplace_strip_right (c : String) (h : cleanName c = true) :
    pyReplace (c ++ "_right") "_right" "" = c :=
  pyReplace_strip c "_right" (by decide) (by decide) (cleanName_no_right c h)

/-- Erasing `_left` leaves `c_right` untouched. -/
theorem pyReplace_left_on_right (c : String) (h : cleanName c = true) :
    pyReplace (c ++ "_right") "_left" "" = c ++ "_right" := by
  apply pyReplace_of_not_contains
  rw [String.data_append]
  exact containsSub_append_false _ _ _ (cleanName_no_left c h) (by decide)
    noStraddle_left_right

/-- Erasing `_right` leaves `c_left` untouched. -/
theorem pyReplace_right_on_left (c : String) (h : cleanName c = true) :
    pyReplace (c ++ "_left") "_right" "" = c ++ "_left" := by
  apply pyReplace_of_not_contains
  rw [String.data_append]
  exact containsSub_append_false _ _ _ (cleanName_no_right c h) (by decide)
    noStraddle_right_left

/-- A clean name never equals a `_left`-suffixed name. -/
theorem cleanName_ne_left_suffixed (c d : String) (h : cleanName c = true) :
    c ≠ d ++ "_left" := by
  intro hEq
  have : containsSub "_left".data c.data = true := by
    rw [hEq, String.data_append]
    exact containsSub_append_self _ _
  rw [cleanName_no_left c h] at this
  exact absurd this (by simp)

/-- A clean name never equals a `_right`-suffixed name. -/
theorem cleanName_ne_right_suffixed (c d : String) (h : cleanName c = true) :
    c ≠ d ++ "_right" := by
  intro hEq
  have : containsSub "_right".data c.data = true := by
    rw [hEq, String.data_append]
    exact containsSub_append_self _ _
  rw [cleanName_no_right c h] at this
  exact absurd this (by simp)

/-- Fixing the left-join columns: `c_left ↦ c`, `c_right ↦ c_right`. -/
theorem map_replace_left (dcols : List String)
    (hclean : ∀ c ∈ dcols, cleanName c = true) :
    ((dcols.map fun c => c ++ "_left") ++ (dcols.map fun c => c ++ "_right")).map
        (fun c => pyReplace c "_left" "")
      = dcols ++ (dcols.map fun c => c ++ "_right") := by
  rw [List.map_append, List.map_map, List.map_map]
  congr 1
  · conv_rhs => rw [← List.map_id dcols]
    apply List.map_congr_left
    intro c hc
    exact pyReplace_strip_left c (hclean c hc)
  · apply List.map_congr_left
    intro c hc
    exact pyReplace_left_on_right c (hclean c hc)

/-- Fixing the right-join columns: `c_left ↦ c_left`, `c_right ↦ c`. -/
theorem map_replace_right (dcols : List String)
    (hclean : ∀ c ∈ dcols, cleanName c = true) :
    ((dcols.map fun c => c ++ "_left") ++ (dcols.map fun c => c ++ "_right")).map
        (fun c => pyReplace c "_right" "")
      = (dcols.map fun c => c ++ "_left") ++ dcols := by
  rw [List.map_append, List.map_map, List.map_map]
  congr 1
  · apply List.map_congr_left
    intro c hc
    exact pyReplace_right_on_left c (hclean c hc)
  · conv_rhs => rw [← List.map_id dcols]
    apply List.map_congr_left
    intro c hc
    exact pyReplace_strip_right c (hclean c hc)

/-- Looking every column up in a row recovers the row itself, when the
column names are distinct and the row is well-formed. -/
theorem map_getVal_self (cols : List String) (r : List Value)
    (hnd : cols.Nodup) (hlen : r.length = cols.length) :
    cols.map (fun c => getVal cols r c) = r := by
  induction cols generalizing r with
  | nil =>
    cases r with
    | nil => rfl
    | cons v vs => simp at hlen
  | cons c cs ih =>
    cases r with
    | nil => simp at hlen
    | cons v vs =>
      rw [List.nodup_cons] at hnd
      obtain ⟨hc, hcs⟩ := hnd
      have hlen' : vs.length = cs.length := by simpa using hlen
      have hcong : ∀ c' ∈ cs, getVal (c :: cs) (v :: vs) c' = getVal cs vs c' := by
        intro c' hmem
        have hne : ¬ c = c' := fun h => hc (h ▸ hmem)
        simp [getVal, hne]
      have h1 : getVal (c :: cs) (v :: vs) c = v := by simp [getVal]
      have h2 : List.map (fun c' => getVal (c :: cs) (v :: vs) c') cs = vs := by
        rw [List.map_congr_left hcong]
        exact ih vs hcs hlen'
      simp only [List.map_cons, h1, h2]

/-! ### Lookup and join lemmas -/

/-- Lookup in appended columns when the target is in the left part. -/
theorem getVal_append_left (a b : List String) (u w : List Value) (c : String)
    (hmem : c ∈ a) (hlen : a.length = u.length) :
    getVal (a ++ b) (u ++ w) c = getVal a u c := by
  induction a generalizing u with
  | nil => simp at hmem
  | cons x a' ih =>
    cases u with
    | nil => simp at hlen
    | cons v u' =>
      rw [List.cons_append, List.cons_append]
      by_cases hx : x = c
      · simp [getVal, hx]
      · have hmem' : c ∈ a' := by
          rcases List.mem_cons.mp hmem with h | h
          · exact absurd h.symm hx
          · exact h
        simp only [getVal, hx, if_false]
        exact ih u' hmem' (by simpa using hlen)

/-- Lookup in appended columns when the target misses the left part. -/
theorem getVal_append_right (a b : List String) (u w : List Value) (c : String)
    (hnot : ∀ x ∈ a, x ≠ c) (hlen : a.length = u.length) :
    getVal (a ++ b) (u ++ w) c = getVal b w c := by
  induction a generalizing u with
  | nil =>
    cases u with
    | nil => rfl
    | cons v u' => simp at hlen
  | cons x a' ih =>
    cases u with
    | nil => simp at hlen
    | cons v u' =>
      have hx : x ≠ c := hnot x (by simp)
      rw [List.cons_append, List.cons_append]
      simp only [getVal, hx, if_false]
      exact ih u' (fun y hy => hnot y (List.mem_cons_of_mem x hy))
        (by simpa using hlen)

/-- Lookup of a suffixed name among uniformly suffixed columns. -/
theorem getVal_map_suffix (a : List String) (u : List Value) (t sfx : String) :
    getVal (a.map fun c => c ++ sfx) u (t ++ sfx) = getVal a u t := by
  induction a generalizing u with
  | nil => rfl
  | cons x a' ih =>
    cases u with
    | nil => rfl
    | cons v u' =>
      by_cases hx : x = t
      · subst hx
        simp [getVal]
      · have hxs : ¬ (x ++ sfx = t ++ sfx) := by
          intro hEq
          have hd := congrArg String.data hEq
          rw [String.data_append, String.data_append] at hd
          exact hx (String.ext (List.append_cancel_right hd))
        simp only [List.map_cons, getVal, hxs, hx, if_false]
        exact ih u'

/-- Lookup in an all-null row yields null. -/
theorem getVal_replicate_null (a : List String) (n : Nat) (t : String) :
    getVal a (List.replicate n Value.null) t = Value.null := by
  induction a generalizing n with
  | nil => rfl
  | cons x a' ih =>
    cases n with
    | zero => rfl
    | succ m =>
      rw [List.replicate_succ]
      by_cases hx : x = t
      · simp [getVal, hx]
      · simp only [getVal, hx, if_false]
        exact ih m

/-- Label lookup agrees with positional lookup on a well-formed row. -/
theorem getVal_eq_getD (cols : List String) (r : List Value) (t : String)
    (hlen : r.length = cols.length) :
    getVal cols r t = r.getD (cols.indexOf t) Value.null := by
  induction cols generalizing r with
  | nil =>
    cases r with
    | nil => rfl
    | cons v vs => simp at hlen
  | cons c cs ih =>
    cases r with
    | nil => simp at hlen
    | cons v vs =>
      rw [List.indexOf_cons]
      by_cases hc : c = t
      · simp [getVal, hc]
      · have : (c == t) = false := by simpa using hc
        simp only [getVal, hc, if_false, this, cond_false]
        rw [List.getD_cons_succ]
        exact ih vs (by simpa using hlen)

/-- Erasing a column not named `t` does not change the lookup of `t`. -/
theorem getVal_eraseIdx (cols : List String) (r : List Value) (i : Nat)
    (t : String) (hlen : r.length = cols.length)
    (ht : cols.getD i "" ≠ t) :
    getVal (cols.eraseIdx i) (r.eraseIdx i) t = getVal cols r t := by
  induction cols generalizing r i with
  | nil =>
    cases r with
    | nil => rfl
    | cons v vs => simp at hlen
  | cons c cs ih =>
    cases r with
    | nil => simp at hlen
    | cons v vs =>
      cases i with
      | zero =>
        have hc : c ≠ t := by simpa using ht
        simp [List.eraseIdx_cons_zero, getVal, hc]
      | succ j =>
        rw [List.eraseIdx_cons_succ, List.eraseIdx_cons_succ]
        by_cases hc : c = t
        · simp [getVal, hc]
        · simp only [getVal, hc, if_false]
          exact ih vs j (by simpa using hlen) (by simpa using ht)

/-- The matched-row filter is empty exactly when the key is absent. -/
theorem filter_keyEq_isEmpty (l : List (Value × List Value)) (k : Value) :
    (l.filter fun q => q.1 == k).isEmpty = true ↔ k ∉ l.map Prod.fst := by
  rw [List.isEmpty_iff, List.filter_eq_nil_iff]
  constructor
  · intro h hmem
    obtain ⟨q, hq, hk⟩ := List.mem_map.mp hmem
    exact h q hq (by simp [hk])
  · intro h q hq hbeq
    exact h (List.mem_map.mpr ⟨q, hq, by simpa using hbeq⟩)

/-- A flat map of guarded singletons is a mapped filter. -/
theorem flatMap_if_singleton {α β : Type} (l : List α) (b : α → Bool)
    (u : α → β) :
    (l.flatMap fun a => if b a then [u a] else []) = (l.filter b).map u := by
  induction l with
  | nil => rfl
  | cons x xs ih =>
    rw [List.flatMap_cons, List.filter_cons]
    by_cases hb : b x
    · simp [hb, ih]
    · simp [hb, ih]

/-- Filtering distributes over a flat map. -/
theorem filter_flatMap {α β : Type} (l : List α) (f : α → List β)
    (P : β → Bool) :
    (l.flatMap f).filter P = l.flatMap fun a => (f a).filter P := by
  induction l with
  | nil => rfl
  | cons x xs ih => simp [List.flatMap_cons, List.filter_append, ih]

/-! ### The diff pipeline, characterized -/

/-- A congruence rule for `flatMap`. -/
theorem flatMap_congr {α β : Type} (l : List α) (f g : α → List β)
    (h : ∀ a ∈ l, f a = g a) : l.flatMap f = l.flatMap g := by
  induction l with
  | nil => rfl
  | cons x xs ih =>
    rw [List.flatMap_cons, List.flatMap_cons, h x (by simp),
      ih fun a ha => h a (by simp [ha])]

/-- The match-filter emptiness test, as a boolean. -/
theorem filter_keyEq_isEmpty_decide (l : List (Value × List Value))
    (k : Value) :
    (l.filter fun q => q.1 == k).isEmpty = decide (k ∉ l.map Prod.fst) := by
  by_cases h : k ∈ l.map Prod.fst
  · rw [decide_eq_false (not_not_intro h)]
    cases hb : (l.filter fun q => q.1 == k).isEmpty with
    | false => rfl
    | true => exact absurd ((filter_keyEq_isEmpty l k).mp hb) (not_not_intro h)
  · rw [decide_eq_true h]
    exact (filter_keyEq_isEmpty l k).mpr h

/-- The `set_index('hashid')` drops exactly the `hashid` label. -/
theorem dataCols_eq_erase (df : DataFrame) :
    dataCols df = df.cols.erase "hashid" := by
  unfold dataCols setIndex
  exact List.eraseIdx_indexOf_eq_erase _ _

/-- The `l.getD (l.indexOf a) "" = a` for a member. -/
theorem getD_indexOf_of_mem (l : List String) (a : String) (h : a ∈ l) :
    l.getD (l.indexOf a) "" = a := by
  have hlt : l.indexOf a < l.length := List.indexOf_lt_length.mpr h
  rw [List.getD_eq_getElem?_getD, List.getElem?_eq_getElem hlt]
  simp [List.getElem_indexOf hlt]

/-- Length of a keyed data row. -/
theorem length_eraseIdx_indexOf (cols : List String) (r : List Value)
    (hmem : "hashid" ∈ cols) (hlen : r.length = cols.length) :
    (r.eraseIdx (cols.indexOf "hashid")).length
      = (cols.erase "hashid").length := by
  have hlt : cols.indexOf "hashid" < cols.length :=
    List.indexOf_lt_length.mpr hmem
  rw [← List.eraseIdx_indexOf_eq_erase, List.length_eraseIdx,
    List.length_eraseIdx]
  simp [hlen, hlt]

/-- The keyed rows, entrywise. -/
theorem keyedRows_eq (df : DataFrame) :
    keyedRows df = df.rows.map fun r =>
      (r.getD (df.cols.indexOf "hashid") Value.null,
        r.eraseIdx (df.cols.indexOf "hashid")) := rfl

/-- The keys of the keyed rows are the fingerprints. -/
theorem keyedRows_fst (df : DataFrame)
    (hwf : ∀ r ∈ df.rows, r.length = df.cols.length) :
    (keyedRows df).map Prod.fst = specFingerprints df := by
  rw [keyedRows_eq, List.map_map]
  unfold specFingerprints
  apply List.map_congr_left
  intro r hr
  simp only [Function.comp]
  exact (getVal_eq_getD df.cols r "hashid" (hwf r hr)).symm

/-- Joining a frame with an identically-labelled frame suffixes every
column. -/
theorem joinCols_self (a : List String) :
    joinCols a a
      = (a.map fun c => c ++ "_left") ++ (a.map fun c => c ++ "_right") := by
  unfold joinCols
  congr 1
  · exact List.map_congr_left fun c hc => if_pos hc
  · exact List.map_congr_left fun c hc => if_pos hc

/-- The joined column names under a shared schema. -/
theorem ljColumns_eq (new old : DataFrame) (hOld : old.cols = new.cols) :
    ljColumns new old
      = ((new.cols.erase "hashid").map fun c => c ++ "_left")
        ++ ((new.cols.erase "hashid").map fun c => c ++ "_right") := by
  unfold ljColumns
  rw [dataCols_eq_erase, dataCols_eq_erase, hOld]
  exact joinCols_self _

/-- The fixed left-join column names under a clean shared schema. -/
theorem ljColsFixed_eq (new old : DataFrame) (hOld : old.cols = new.cols)
    (hclean : ∀ c ∈ new.cols, cleanName c = true) :
    ljColsFixed new old
      = (new.cols.erase "hashid")
        ++ ((new.cols.erase "hashid").map fun c => c ++ "_right") := by
  unfold ljColsFixed
  rw [ljColumns_eq new old hOld]
  exact map_replace_left _ fun c hc => hclean c (List.mem_of_mem_erase hc)

/-- The fixed right-join column names under a clean shared schema. -/
theorem rjColsFixed_eq (new old : DataFrame) (hOld : old.cols = new.cols)
    (hclean : ∀ c ∈ new.cols, cleanName c = true) :
    rjColsFixed new old
      = ((new.cols.erase "hashid").map fun c => c ++ "_left")
        ++ (new.cols.erase "hashid") := by
  unfold rjColsFixed
  rw [ljColumns_eq new old hOld]
  exact map_replace_right _ fun c hc => hclean c (List.mem_of_mem_erase hc)

/-- A `_left`-suffixed name never equals a `_right`-suffixed name. -/
theorem left_suffix_ne_right_suffix (d q : String) :
    d ++ "_left" ≠ q ++ "_right" := by
  intro h
  have hd := congrArg String.data h
  rw [String.data_append, String.data_append] at hd
  have hrev := congrArg List.reverse hd
  rw [List.reverse_append, List.reverse_append] at hrev
  have hpref : ("_left".data.reverse).isPrefixOf
      ("_right".data.reverse ++ q.data.reverse) = true := by
    rw [← hrev, List.isPrefixOf_iff_prefix]
    exact List.prefix_append _ _
  rcases isPrefixOf_append_cases _ _ _ hpref with ⟨_, hpf⟩ | ⟨hlt, _, _⟩
  · exact absurd hpf (by decide)
  · have h5 : ("_left".data.reverse).length = 5 := by decide
    have h6 : ("_right".data.reverse).length = 6 := by decide
    omega

/-- The `left_not_right`, characterized under a well-formed shared schema with
no null `Project Name` on the old side: exactly the new keyed rows whose
key is absent from the old keys, each padded with nulls on the right. -/
theorem leftNotRight_eq (new old : DataFrame)
    (hOld : old.cols = new.cols)
    (hhash : "hashid" ∈ new.cols)
    (hwfN : ∀ r ∈ new.rows, r.length = new.cols.length)
    (hwfO : ∀ r ∈ old.rows, r.length = old.cols.length)
    (hPNo : ∀ r ∈ old.rows,
      (getVal old.cols r "Project Name").isNull = false) :
    leftNotRight new old
      = ((keyedRows new).filter fun p =>
            decide (p.1 ∉ (keyedRows old).map Prod.fst)).map
          fun p =>
            (p.1, p.2 ++ List.replicate (new.cols.erase "hashid").length
              Value.null) := by
  have hdataO : dataCols old = new.cols.erase "hashid" := by
    rw [dataCols_eq_erase, hOld]
  have hsplit : ("Project Name_right" : String)
      = "Project Name" ++ "_right" := by decide
  have hnotL : ∀ x ∈ (new.cols.erase "hashid").map (fun c => c ++ "_left"),
      x ≠ "Project Name_right" := by
    intro x hx
    obtain ⟨d, _, rfl⟩ := List.mem_map.mp hx
    rw [hsplit]
    exact left_suffix_ne_right_suffix d "Project Name"
  have hlenN : ∀ p ∈ keyedRows new,
      p.2.length = (new.cols.erase "hashid").length := by
    intro p hp
    rw [keyedRows_eq] at hp
    obtain ⟨r, hr, rfl⟩ := List.mem_map.mp hp
    exact length_eraseIdx_indexOf new.cols r hhash (hwfN r hr)
  have hPNq : ∀ q ∈ keyedRows old,
      (getVal (new.cols.erase "hashid") q.2 "Project Name").isNull
        = false := by
    intro q hq
    rw [keyedRows_eq] at hq
    obtain ⟨s, hs, rfl⟩ := List.mem_map.mp hq
    have hws := hwfO s hs
    have hne : old.cols.getD (old.cols.indexOf "hashid") ""
        ≠ "Project Name" := by
      rw [getD_indexOf_of_mem old.cols "hashid" (by rw [hOld]; exact hhash)]
      decide
    have hg := getVal_eraseIdx old.cols s (old.cols.indexOf "hashid")
      "Project Name" hws hne
    rw [List.eraseIdx_indexOf_eq_erase] at hg
    show (getVal (new.cols.erase "hashid")
      (s.eraseIdx (old.cols.indexOf "hashid")) "Project Name").isNull = false
    rw [← hOld, hg]
    exact hPNo s hs
  have hPmatch : ∀ p ∈ keyedRows new, ∀ q ∈ keyedRows old,
      (getVal (ljColumns new old) (p.2 ++ q.2)
        "Project Name_right").isNull = false := by
    intro p hp q hq
    rw [ljColumns_eq new old hOld,
      getVal_append_right _ _ _ _ _ hnotL
        (by rw [List.length_map, hlenN p hp]),
      hsplit, getVal_map_suffix]
    exact hPNq q hq
  have hPpad : ∀ p ∈ keyedRows new,
      (getVal (ljColumns new old)
        (p.2 ++ List.replicate (dataCols old).length Value.null)
        "Project Name_right").isNull = true := by
    intro p hp
    rw [ljColumns_eq new old hOld,
      getVal_append_right _ _ _ _ _ hnotL
        (by rw [List.length_map, hlenN p hp]),
      getVal_replicate_null]
    rfl
  unfold leftNotRight leftJoined leftJoinRows
  rw [filter_flatMap]
  rw [flatMap_congr _ _
    (fun p =>
      if ((keyedRows old).filter fun q => q.1 == p.1).isEmpty then
        [(p.1, p.2 ++ List.replicate (dataCols old).length Value.null)]
      else [])
    ?hcong]
  case hcong =>
    intro p hp
    show _ = if ((keyedRows old).filter fun q => q.1 == p.1).isEmpty then
      [(p.1, p.2 ++ List.replicate (dataCols old).length Value.null)] else []
    by_cases hms : ((keyedRows old).filter fun q => q.1 == p.1).isEmpty
    · simp [hms, hPpad p hp]
    · rw [if_neg hms, if_neg hms]
      apply List.filter_eq_nil_iff.mpr
      intro x hx
      obtain ⟨q, hqm, rfl⟩ := List.mem_map.mp hx
      have hq : q ∈ keyedRows old := List.mem_of_mem_filter hqm
      simp [hPmatch p hp q hq]
  rw [flatMap_if_singleton, hdataO,
    List.filter_congr
      fun p _ => filter_keyEq_isEmpty_decide (keyedRows old) p.1]

/-- The `right_not_left`, characterized under a well-formed shared schema with
no null `Project Name` on the new side: exactly the old keyed rows whose
key is absent from the new keys, each padded with nulls on the left. -/
theorem rightNotLeft_eq (new old : DataFrame)
    (hOld : old.cols = new.cols) (hnd : new.cols.Nodup)
    (hhash : "hashid" ∈ new.cols) (hPN : "Project Name" ∈ new.cols)
    (hwfN : ∀ r ∈ new.rows, r.length = new.cols.length)
    (hPNn : ∀ r ∈ new.rows,
      (getVal new.cols r "Project Name").isNull = false) :
    rightNotLeft new old
      = ((keyedRows old).filter fun q =>
            decide (q.1 ∉ (keyedRows new).map Prod.fst)).map
          fun q =>
            (q.1, List.replicate (new.cols.erase "hashid").length Value.null
              ++ q.2) := by
  have hdataN : dataCols new = new.cols.erase "hashid" := dataCols_eq_erase new
  have hsplit : ("Project Name_left" : String)
      = "Project Name" ++ "_left" := by decide
  have hPNd : "Project Name" ∈ new.cols.erase "hashid" :=
    (hnd.mem_erase_iff).mpr ⟨by decide, hPN⟩
  have hPNl : "Project Name_left"
      ∈ (new.cols.erase "hashid").map (fun c => c ++ "_left") := by
    rw [hsplit]
    exact List.mem_map.mpr ⟨"Project Name", hPNd, rfl⟩
  have hlenN : ∀ p ∈ keyedRows new,
      p.2.length = (new.cols.erase "hashid").length := by
    intro p hp
    rw [keyedRows_eq] at hp
    obtain ⟨r, hr, rfl⟩ := List.mem_map.mp hp
    exact length_eraseIdx_indexOf new.cols r hhash (hwfN r hr)
  have hPNp : ∀ p ∈ keyedRows new,
      (getVal (new.cols.erase "hashid") p.2 "Project Name").isNull
        = false := by
    intro p hp
    rw [keyedRows_eq] at hp
    obtain ⟨r, hr, rfl⟩ := List.mem_map.mp hp
    have hwr := hwfN r hr
    have hne : new.cols.getD (new.cols.indexOf "hashid") ""
        ≠ "Project Name" := by
      rw [getD_indexOf_of_mem new.cols "hashid" hhash]
      decide
    have hg := getVal_eraseIdx new.cols r (new.cols.indexOf "hashid")
      "Project Name" hwr hne
    rw [List.eraseIdx_indexOf_eq_erase] at hg
    show (getVal (new.cols.erase "hashid")
      (r.eraseIdx (new.cols.indexOf "hashid")) "Project Name").isNull = false
    rw [hg]
    exact hPNn r hr
  have hPmatch : ∀ p ∈ keyedRows new, ∀ v : Value, ∀ w : List Value,
      (getVal (ljColumns new old) (p.2 ++ w)
        "Project Name_left").isNull = false := by
    intro p hp v w
    rw [ljColumns_eq new old hOld,
      getVal_append_left _ _ _ _ _ hPNl
        (by rw [List.length_map, hlenN p hp]),
      hsplit, getVal_map_suffix]
    exact hPNp p hp
  have hPpad : ∀ w : List Value,
      (getVal (ljColumns new old)
        (List.replicate (dataCols new).length Value.null ++ w)
        "Project Name_left").isNull = true := by
    intro w
    rw [ljColumns_eq new old hOld,
      getVal_append_left _ _ _ _ _ hPNl
        (by rw [List.length_map, hdataN, List.length_replicate]),
      getVal_replicate_null]
    rfl
  unfold rightNotLeft rightJoined rightJoinRows
  rw [filter_flatMap]
  rw [flatMap_congr _ _
    (fun q =>
      if ((keyedRows new).filter fun p => p.1 == q.1).isEmpty then
        [(q.1, List.replicate (dataCols new).length Value.null ++ q.2)]
      else [])
    ?hcong]
  case hcong =>
    intro q hq
    show _ = if ((keyedRows new).filter fun p => p.1 == q.1).isEmpty then
      [(q.1, List.replicate (dataCols new).length Value.null ++ q.2)] else []
    by_cases hms : ((keyedRows new).filter fun p => p.1 == q.1).isEmpty
    · simp [hms, hPpad q.2]
    · rw [if_neg hms, if_neg hms]
      apply List.filter_eq_nil_iff.mpr
      intro x hx
      obtain ⟨p, hpm, rfl⟩ := List.mem_map.mp hx
      have hp : p ∈ keyedRows new := List.mem_of_mem_filter hpm
      simp [hPmatch p hp q.1 q.2]
  rw [flatMap_if_singleton, hdataN,
    List.filter_congr
      fun q _ => filter_keyEq_isEmpty_decide (keyedRows new) q.1]

/-- Projecting a null-padded added row onto the output columns recovers
the original record's data cells. -/
theorem projRow_added (new old : DataFrame)
    (hOld : old.cols = new.cols) (hnd : new.cols.Nodup)
    (hhash : "hashid" ∈ new.cols)
    (hclean : ∀ c ∈ new.cols, cleanName c = true)
    (r : List Value) (hwr : r.length = new.cols.length) :
    projRow (ljColsFixed new old)
        (r.eraseIdx (new.cols.indexOf "hashid")
          ++ List.replicate (new.cols.erase "hashid").length Value.null)
        (outputColumns new)
      = projRow new.cols r (outputColumns new) := by
  unfold projRow outputColumns
  apply List.map_congr_left
  intro c hc
  have hcne : c ≠ "hashid" := ((hnd.mem_erase_iff).mp hc).1
  rw [ljColsFixed_eq new old hOld hclean,
    getVal_append_left _ _ _ _ _ hc
      (length_eraseIdx_indexOf new.cols r hhash hwr).symm]
  have hne : new.cols.getD (new.cols.indexOf "hashid") "" ≠ c := by
    rw [getD_indexOf_of_mem new.cols "hashid" hhash]
    exact fun h => hcne h.symm
  have hg := getVal_eraseIdx new.cols r (new.cols.indexOf "hashid") c hwr hne
  rw [List.eraseIdx_indexOf_eq_erase] at hg
  exact hg

/-- Projecting a null-padded removed row onto the output columns recovers
the old record's data cells. -/
theorem projRow_removed (new old : DataFrame)
    (hOld : old.cols = new.cols) (hnd : new.cols.Nodup)
    (hhash : "hashid" ∈ new.cols)
    (hclean : ∀ c ∈ new.cols, cleanName c = true)
    (s : List Value) (hws : s.length = old.cols.length) :
    projRow (rjColsFixed new old)
        (List.replicate (new.cols.erase "hashid").length Value.null
          ++ s.eraseIdx (old.cols.indexOf "hashid"))
        (outputColumns new)
      = projRow old.cols s (outputColumns new) := by
  unfold projRow outputColumns
  apply List.map_congr_left
  intro c hc
  have hcne : c ≠ "hashid" := ((hnd.mem_erase_iff).mp hc).1
  have hcmem : c ∈ new.cols := List.mem_of_mem_erase hc
  have hnotL : ∀ x ∈ (new.cols.erase "hashid").map (fun d => d ++ "_left"),
      x ≠ c := by
    intro x hx
    obtain ⟨d, _, rfl⟩ := List.mem_map.mp hx
    exact fun h => cleanName_ne_left_suffixed c d (hclean c hcmem) h.symm
  rw [rjColsFixed_eq new old hOld hclean,
    getVal_append_right _ _ _ _ _ hnotL
      (by rw [List.length_map, List.length_replicate])]
  have hne : old.cols.getD (old.cols.indexOf "hashid") "" ≠ c := by
    rw [getD_indexOf_of_mem old.cols "hashid" (by rw [hOld]; exact hhash)]
    exact fun h => hcne h.symm
  have hg := getVal_eraseIdx old.cols s (old.cols.indexOf "hashid") c hws hne
  rw [List.eraseIdx_indexOf_eq_erase] at hg
  rw [← hOld]
  exact hg

/-- A mapped filter over a mapped list, rewritten by pointwise
congruences. -/
theorem map_filter_map_eq {α β γ : Type} (l : List α) (f : α → β)
    (p : β → Bool) (g : β → γ) (q : α → Bool) (h : α → γ)
    (hpq : ∀ a ∈ l, p (f a) = q a)
    (hgh : ∀ a ∈ l, q a = true → g (f a) = h a) :
    ((l.map f).filter p).map g = (l.filter q).map h := by
  induction l with
  | nil => rfl
  | cons x xs ih =>
    rw [List.map_cons, List.filter_cons, List.filter_cons,
      hpq x (List.mem_cons_self x xs)]
    have ih' := ih (fun a ha => hpq a (List.mem_cons_of_mem x ha))
      (fun a ha h' => hgh a (List.mem_cons_of_mem x ha) h')
    by_cases hq : q x = true
    · rw [if_pos hq, if_pos hq, List.map_cons, List.map_cons,
        hgh x (List.mem_cons_self x xs) hq, ih']
    · rw [if_neg hq, if_neg hq, ih']

/-- The rows of the `Added` table are exactly the spec's added records. -/
theorem addedFrame_rows_spec (new old : DataFrame)
    (hOld : old.cols = new.cols) (hnd : new.cols.Nodup)
    (hhash : "hashid" ∈ new.cols)
    (hclean : ∀ c ∈ new.cols, cleanName c = true)
    (hwfN : ∀ r ∈ new.rows, r.length = new.cols.length)
    (hwfO : ∀ r ∈ old.rows, r.length = old.cols.length)
    (hPNo : ∀ r ∈ old.rows,
      (getVal old.cols r "Project Name").isNull = false) :
    (addedFrame new old).rows = specAddedRecords new old := by
  show ((leftNotRight new old).map fun p =>
      projRow (ljColsFixed new old) p.2 (outputColumns new)) = _
  rw [leftNotRight_eq new old hOld hhash hwfN hwfO hPNo, List.map_map,
    keyedRows_eq new]
  unfold specAddedRecords
  apply map_filter_map_eq
  · intro r hr
    show decide (r.getD (new.cols.indexOf "hashid") Value.null
        ∉ (keyedRows old).map Prod.fst) = _
    apply decide_eq_decide.mpr
    rw [← getVal_eq_getD new.cols r "hashid" (hwfN r hr),
      keyedRows_fst old hwfO]
  · intro r hr _
    show projRow (ljColsFixed new old)
        (r.eraseIdx (new.cols.indexOf "hashid")
          ++ List.replicate (new.cols.erase "hashid").length Value.null)
        (outputColumns new)
      = projRow new.cols r (outputColumns new)
    exact projRow_added new old hOld hnd hhash hclean r (hwfN r hr)

/-- The rows of the `Removed` table are exactly the spec's removed
records. -/
theorem removedFrame_rows_spec (new old : DataFrame)
    (hOld : old.cols = new.cols) (hnd : new.cols.Nodup)
    (hhash : "hashid" ∈ new.cols) (hPN : "Project Name" ∈ new.cols)
    (hclean : ∀ c ∈ new.cols, cleanName c = true)
    (hwfN : ∀ r ∈ new.rows, r.length = new.cols.length)
    (hwfO : ∀ r ∈ old.rows, r.length = old.cols.length)
    (hPNn : ∀ r ∈ new.rows,
      (getVal new.cols r "Project Name").isNull = false) :
    (removedFrame new old).rows = specRemovedRecords new old := by
  show ((rightNotLeft new old).map fun p =>
      projRow (rjColsFixed new old) p.2 (outputColumns new)) = _
  rw [rightNotLeft_eq new old hOld hnd hhash hPN hwfN hPNn, List.map_map,
    keyedRows_eq old]
  unfold specRemovedRecords
  apply map_filter_map_eq
  · intro s hs
    show decide (s.getD (old.cols.indexOf "hashid") Value.null
        ∉ (keyedRows new).map Prod.fst) = _
    apply decide_eq_decide.mpr
    rw [← getVal_eq_getD old.cols s "hashid" (hwfO s hs),
      keyedRows_fst new hwfN]
  · intro s hs _
    show projRow (rjColsFixed new old)
        (List.replicate (new.cols.erase "hashid").length Value.null
          ++ s.eraseIdx (old.cols.indexOf "hashid"))
        (outputColumns new)
      = projRow old.cols s (outputColumns new)
    exact projRow_removed new old hOld hnd hhash hclean s (hwfO s hs)

/-- Under a clean, well-formed shared schema, `compare_tables` succeeds and
returns the dict built from the added and removed tables, each present only
when non-empty. -/
theorem compare_tables_success (new old : DataFrame)
    (hOld : old.cols = new.cols) (hnd : new.cols.Nodup)
    (hhash : "hashid" ∈ new.cols) (hPN : "Project Name" ∈ new.cols)
    (hclean : ∀ c ∈ new.cols, cleanName c = true) :
    compare_tables new (some old)
      = .ok ⟨if (addedFrame new old).isEmpty then none
              else some (addedFrame new old),
             if (removedFrame new old).isEmpty then none
              else some (removedFrame new old)⟩ := by
  have hPNd : "Project Name" ∈ new.cols.erase "hashid" :=
    (hnd.mem_erase_iff).mpr ⟨by decide, hPN⟩
  have hsplitR : ("Project Name_right" : String)
      = "Project Name" ++ "_right" := by decide
  have hsplitL : ("Project Name_left" : String)
      = "Project Name" ++ "_left" := by decide
  have h1 : "Project Name_right" ∈ ljColumns new old := by
    rw [ljColumns_eq new old hOld, hsplitR]
    exact List.mem_append_right _ (List.mem_map.mpr ⟨_, hPNd, rfl⟩)
  have h2 : "Project Name_left" ∈ ljColumns new old := by
    rw [ljColumns_eq new old hOld, hsplitL]
    exact List.mem_append_left _ (List.mem_map.mpr ⟨_, hPNd, rfl⟩)
  have h3 : (outputColumns new).all
      (fun c => (ljColsFixed new old).contains c) = true := by
    rw [List.all_eq_true]
    intro c hc
    rw [ljColsFixed_eq new old hOld hclean]
    exact List.elem_eq_true_of_mem (List.mem_append_left _ hc)
  have h4 : (outputColumns new).all
      (fun c => (rjColsFixed new old).contains c) = true := by
    rw [List.all_eq_true]
    intro c hc
    rw [rjColsFixed_eq new old hOld hclean]
    exact List.elem_eq_true_of_mem (List.mem_append_right _ hc)
  unfold compare_tables
  rw [if_pos hhash]
  simp only [get_saved_data]
  rw [if_pos (show "hashid" ∈ old.cols by rw [hOld]; exact hhash),
    if_pos ⟨h1, h2, h3, h4⟩]

/-- A frame with a named column is `empty` exactly when it has no rows. -/
theorem isEmpty_of_cols_nonempty (df : DataFrame) (c : String)
    (h : c ∈ df.cols) : df.isEmpty = df.rows.isEmpty := by
  unfold DataFrame.isEmpty
  have hc : df.cols.isEmpty = false := by
    cases hcs : df.cols with
    | nil => rw [hcs] at h; simp at h
    | cons x xs => rfl
  rw [hc, Bool.or_false]

/-- Whenever `compare_tables` succeeds, the store held a table and the
result is the dict of the added and removed tables, each present only when
non-empty. -/
theorem compare_tables_ok_shape (new : DataFrame) (st : Store)
    (d : DiffResult) (h : compare_tables new st = .ok d) :
    ∃ old, st = some old ∧
      d = ⟨if (addedFrame new old).isEmpty then none
            else some (addedFrame new old),
           if (removedFrame new old).isEmpty then none
            else some (removedFrame new old)⟩ := by
  unfold compare_tables at h
  by_cases h1 : "hashid" ∈ new.cols
  · rw [if_pos h1] at h
    cases st with
    | none => simp [get_saved_data] at h
    | some old =>
      simp only [get_saved_data] at h
      by_cases h2 : "hashid" ∈ old.cols
      · rw [if_pos h2] at h
        by_cases h3 : "Project Name_right" ∈ ljColumns new old
            ∧ "Project Name_left" ∈ ljColumns new old
            ∧ (outputColumns new).all
                (fun c => (ljColsFixed new old).contains c)
            ∧ (outputColumns new).all
                (fun c => (rjColsFixed new old).contains c)
        · rw [if_pos h3] at h
          refine ⟨old, rfl, ?_⟩
          injection h with h'
          exact h'.symm
        · rw [if_neg h3] at h
          simp at h
      · rw [if_neg h2] at h
        simp at h
  · rw [if_neg h1] at h
    simp at h

/-- Diffing a snapshot against itself adds nothing, spec-side. -/
theorem specAddedRecords_self (S : DataFrame) :
    specAddedRecords S S = [] := by
  unfold specAddedRecords
  rw [List.filter_eq_nil_iff.mpr ?hnil, List.map_nil]
  case hnil =>
    intro r hr
    have hmem : getVal S.cols r "hashid" ∈ specFingerprints S :=
      List.mem_map.mpr ⟨r, hr, rfl⟩
    simp [hmem]

/-- Diffing a snapshot against itself removes nothing, spec-side. -/
theorem specRemovedRecords_self (S : DataFrame) :
    specRemovedRecords S S = [] := by
  unfold specRemovedRecords
  rw [List.filter_eq_nil_iff.mpr ?hnil, List.map_nil]
  case hnil =>
    intro r hr
    have hmem : getVal S.cols r "hashid" ∈ specFingerprints S :=
      List.mem_map.mpr ⟨r, hr, rfl⟩
    simp [hmem]

/-- C5 (code_bug evidence): reading the store before any snapshot was ever
persisted does not return an empty snapshot — the `SELECT` raises, and the
whole run aborts with that error. -/
theorem c5_read_unpersisted_store_raises :
    get_saved_data (none : Store)
        = .error "StoreReadError: relation data does not exist"
      ∧ run_quote_check firstRunRaw (none : Store)
        = .error "StoreReadError: relation data does not exist" :=
  ⟨rfl, rfl⟩

/-- C7: `replace` followed by `current` returns the same snapshot — the
same records with the same fingerprints — whatever the store held before. -/
theorem c7_round_trip (S : DataFrame) (st : Store) :
    get_saved_data (save_to_database S st) = .ok S := rfl

/-- C6 counterexample: the snapshot built from two structurally identical
records keeps two entries (with equal fingerprints), not exactly one. -/
theorem c6_duplicates_not_collapsed_cex :
    (append_hashid_col dupRaw).rows.length = 2
      ∧ (append_hashid_col dupRaw).rows.getD 0 []
          = (append_hashid_col dupRaw).rows.getD 1 [] :=
  ⟨rfl, rfl⟩

/-- C6 amended: the row hasher preserves record multiplicity — it emits one
entry per input record, and structurally identical records receive
identical fingerprinted entries; duplicates are not collapsed. -/
theorem c6_hasher_preserves_multiplicity (df : DataFrame) (i j : Nat)
    (hi : i < df.rows.length) (hj : j < df.rows.length)
    (heq : df.rows.getD i [] = df.rows.getD j []) :
    (append_hashid_col df).rows.length = df.rows.length
      ∧ (append_hashid_col df).rows.getD i []
          = (append_hashid_col df).rows.getD j [] := by
  constructor
  · simp [append_hashid_col]
  · have hget : ∀ k : Nat, k < df.rows.length →
        (append_hashid_col df).rows.getD k []
          = df.rows.getD k [] ++ [Value.str (rowFingerprint df.cols (df.rows.getD k []))] := by
      intro k hk
      simp [append_hashid_col, List.getD_eq_getElem?_getD, List.getElem?_map,
        List.getElem?_eq_getElem hk]
    rw [hget i hi, hget j hj, heq]

/-- C6 amended, witness at the duplicate-record snapshot. -/
theorem c6_hasher_preserves_multiplicity_witness :
    (append_hashid_col dupRaw).rows.length = dupRaw.rows.length
      ∧ (append_hashid_col dupRaw).rows.getD 0 []
          = (append_hashid_col dupRaw).rows.getD 1 [] :=
  c6_hasher_preserves_multiplicity dupRaw 0 1 (by decide) (by decide) (by decide)

/-- C4 counterexample: on a first run (the persisted table exists but is
empty) the diff engine is never executed — `run_quote_check` returns the
empty dict and persists the baseline with `compare_tables` unrun (the
final `false`), rather than running the diff and discarding it. -/
theorem c4_first_run_skips_diff_cex :
    run_quote_check firstRunRaw (some emptySaved)
      = .ok (emptyDiff, some (append_hashid_col firstRunRaw), false) := rfl

/-- C4 amended: on a first run (the persisted prior snapshot reads back
empty) the run skips the diff engine entirely, persists the new snapshot
as the baseline, and returns a result reporting no differences. -/
theorem c4_first_run_baseline (raw : DataFrame) (st : Store)
    (saved : DataFrame) (hread : get_saved_data st = .ok saved)
    (hempty : saved.isEmpty = true) :
    run_quote_check raw st
      = .ok (emptyDiff, some (append_hashid_col raw), false) := by
  unfold run_quote_check
  rw [hread]
  simp [hempty, save_to_database]

/-- C4 amended, witness at a concrete first-run store. -/
theorem c4_first_run_baseline_witness :
    run_quote_check firstRunRaw (some emptySaved)
      = .ok (emptyDiff, some (append_hashid_col firstRunRaw), false) :=
  c4_first_run_baseline firstRunRaw (some emptySaved) emptySaved rfl rfl

/-- C2: with a duplicate-free schema and a well-formed record, the
fingerprint attached by the row hasher is the SHA-256 hex digest of the
concatenation, in column order with no separator, of `str()` of each value;
the hasher appends exactly that fingerprint to every row.  (Determinism is
definitional: `rowFingerprint` is a pure function of the record.) -/
theorem c2_fingerprint_is_sha256 (df : DataFrame) (r : List Value)
    (hnd : df.cols.Nodup) (hlen : r.length = df.cols.length) :
    rowFingerprint df.cols r = sha256hex (String.join (r.map pyStr))
      ∧ (append_hashid_col df).rows
          = df.rows.map fun row =>
              row ++ [Value.str (rowFingerprint df.cols row)] := by
  constructor
  · unfold rowFingerprint
    have hmap : df.cols.map (fun c => pyStr (getVal df.cols r c))
        = r.map pyStr := by
      have hcomp : (fun c => pyStr (getVal df.cols r c))
          = pyStr ∘ fun c => getVal df.cols r c := rfl
      rw [hcomp, ← List.map_map, map_getVal_self df.cols r hnd hlen]
    rw [hmap]
  · rfl

/-- C2, witness at a concrete two-column record. -/
theorem c2_fingerprint_is_sha256_witness :
    rowFingerprint ["a", "b"] [Value.int 1, Value.str "X"]
        = sha256hex (String.join ([Value.int 1, Value.str "X"].map pyStr))
      ∧ (append_hashid_col ⟨["a", "b"], [[Value.int 1, Value.str "X"]]⟩).rows
          = [[Value.int 1, Value.str "X"]].map fun row =>
              row ++ [Value.str (rowFingerprint ["a", "b"] row)] :=
  c2_fingerprint_is_sha256 ⟨["a", "b"], [[Value.int 1, Value.str "X"]]⟩
    [Value.int 1, Value.str "X"] (by decide) (by decide)

/-- C1 counterexample: a one-record snapshot whose `Project Name` is null,
diffed against itself.  The record's fingerprint appears in both snapshots,
yet the record lands in both `Added` and `Removed`, because the source
detects join misses by `Project Name` nullness rather than by fingerprint
membership. -/
theorem c1_null_name_cex :
    compare_tables nullNameSnap (some nullNameSnap)
      = .ok ⟨some ⟨["Project Name"], [[Value.null]]⟩,
             some ⟨["Project Name"], [[Value.null]]⟩⟩ := rfl

/-- C1 amended: provided the two snapshots share a duplicate-free schema
free of the join suffixes and containing `hashid` and `Project Name`, rows
are well-formed, and every record in both snapshots carries a non-null
`Project Name`, the diff returns as `Added` exactly the new records whose
fingerprint is absent from the old snapshot (in order, projected onto the
data columns), as `Removed` exactly the old records whose fingerprint is
absent from the new snapshot, each key present only when non-empty — so a
record whose fingerprint appears in both snapshots contributes to neither
output. -/
theorem c1_diff_fingerprint_characterization (new old : DataFrame)
    (hOld : old.cols = new.cols) (hnd : new.cols.Nodup)
    (hhash : "hashid" ∈ new.cols) (hPN : "Project Name" ∈ new.cols)
    (hclean : ∀ c ∈ new.cols, cleanName c = true)
    (hwfN : ∀ r ∈ new.rows, r.length = new.cols.length)
    (hwfO : ∀ r ∈ old.rows, r.length = old.cols.length)
    (hPNn : ∀ r ∈ new.rows,
      (getVal new.cols r "Project Name").isNull = false)
    (hPNo : ∀ r ∈ old.rows,
      (getVal old.cols r "Project Name").isNull = false) :
    compare_tables new (some old)
      = .ok ⟨if specAddedRecords new old = [] then none
              else some ⟨outputColumns new, specAddedRecords new old⟩,
             if specRemovedRecords new old = [] then none
              else some ⟨outputColumns new, specRemovedRecords new old⟩⟩ := by
  have hPNd : "Project Name" ∈ outputColumns new :=
    (hnd.mem_erase_iff).mpr ⟨by decide, hPN⟩
  have hout : outputColumns new ≠ [] := List.ne_nil_of_mem hPNd
  rw [compare_tables_success new old hOld hnd hhash hPN hclean]
  have ha := addedFrame_rows_spec new old hOld hnd hhash hclean hwfN hwfO hPNo
  have hrm := removedFrame_rows_spec new old hOld hnd hhash hPN hclean
    hwfN hwfO hPNn
  have haf : addedFrame new old
      = ⟨outputColumns new, specAddedRecords new old⟩ :=
    DataFrame.ext rfl ha
  have hrf : removedFrame new old
      = ⟨outputColumns new, specRemovedRecords new old⟩ :=
    DataFrame.ext rfl hrm
  rw [haf, hrf]
  have hifA : (if (⟨outputColumns new, specAddedRecords new old⟩
          : DataFrame).isEmpty then (none : Option DataFrame)
        else some ⟨outputColumns new, specAddedRecords new old⟩)
      = (if specAddedRecords new old = [] then none
        else some ⟨outputColumns new, specAddedRecords new old⟩) := by
    by_cases hA : specAddedRecords new old = []
    · rw [if_pos hA,
        if_pos (by simp [DataFrame.isEmpty, hA])]
    · rw [if_neg hA,
        if_neg (by simp [DataFrame.isEmpty, List.isEmpty_iff, hA, hout])]
  have hifR : (if (⟨outputColumns new, specRemovedRecords new old⟩
          : DataFrame).isEmpty then (none : Option DataFrame)
        else some ⟨outputColumns new, specRemovedRecords new old⟩)
      = (if specRemovedRecords new old = [] then none
        else some ⟨outputColumns new, specRemovedRecords new old⟩) := by
    by_cases hR : specRemovedRecords new old = []
    · rw [if_pos hR,
        if_pos (by simp [DataFrame.isEmpty, hR])]
    · rw [if_neg hR,
        if_neg (by simp [DataFrame.isEmpty, List.isEmpty_iff, hR, hout])]
  rw [hifA, hifR]

/-- C1 amended, witness at the spec's §8 symmetric-diff example. -/
theorem c1_diff_fingerprint_characterization_witness :
    compare_tables sampleNew (some sampleOld)
      = .ok ⟨if specAddedRecords sampleNew sampleOld = [] then none
              else some ⟨outputColumns sampleNew,
                specAddedRecords sampleNew sampleOld⟩,
             if specRemovedRecords sampleNew sampleOld = [] then none
              else some ⟨outputColumns sampleNew,
                specRemovedRecords sampleNew sampleOld⟩⟩ :=
  c1_diff_fingerprint_characterization sampleNew sampleOld (by rfl)
    (by decide) (by decide) (by decide) (by decide) (by decide) (by decide)
    (by decide) (by decide)

/-- C3 counterexample: a snapshot with a null `Project Name` diffed against
itself yields non-empty `Added` and `Removed`, not the empty result. -/
theorem c3_self_diff_nonempty_cex :
    compare_tables nullNameSnap2 (some nullNameSnap2)
      = .ok ⟨some ⟨["Project Name", "Quote Amount"],
               [[Value.null, Value.int 5]]⟩,
             some ⟨["Project Name", "Quote Amount"],
               [[Value.null, Value.int 5]]⟩⟩ := rfl

/-- C3 amended: for a well-formed snapshot over a duplicate-free clean
schema whose records all carry a non-null `Project Name`, diffing the
snapshot against itself yields the empty dict — no entry under either
key. -/
theorem c3_self_diff_empty (S : DataFrame)
    (hnd : S.cols.Nodup) (hhash : "hashid" ∈ S.cols)
    (hPN : "Project Name" ∈ S.cols)
    (hclean : ∀ c ∈ S.cols, cleanName c = true)
    (hwf : ∀ r ∈ S.rows, r.length = S.cols.length)
    (hPNn : ∀ r ∈ S.rows,
      (getVal S.cols r "Project Name").isNull = false) :
    compare_tables S (some S) = .ok emptyDiff := by
  have hPNd : "Project Name" ∈ (addedFrame S S).cols :=
    (hnd.mem_erase_iff).mpr ⟨by decide, hPN⟩
  rw [compare_tables_success S S rfl hnd hhash hPN hclean]
  have ha := addedFrame_rows_spec S S rfl hnd hhash hclean hwf hwf hPNn
  have hrm := removedFrame_rows_spec S S rfl hnd hhash hPN hclean hwf hwf hPNn
  rw [specAddedRecords_self] at ha
  rw [specRemovedRecords_self] at hrm
  have hA : (addedFrame S S).isEmpty = true := by
    rw [isEmpty_of_cols_nonempty (addedFrame S S) "Project Name" hPNd, ha]
    rfl
  have hR : (removedFrame S S).isEmpty = true := by
    rw [isEmpty_of_cols_nonempty (removedFrame S S) "Project Name" hPNd, hrm]
    rfl
  rw [if_pos hA, if_pos hR]
  rfl

/-- C3 amended, witness at a concrete snapshot. -/
theorem c3_self_diff_empty_witness :
    compare_tables sampleNew (some sampleNew) = .ok emptyDiff :=
  c3_self_diff_empty sampleNew (by decide) (by decide) (by decide)
    (by decide) (by decide) (by decide)

/-- C9: whenever `compare_tables` succeeds and the output schema names
`Project Name`, the `Added` key is present in the returned dict exactly
when the computed added table has rows, and likewise for `Removed`; an
absent key means no entries of that kind. -/
theorem c9_keys_present_iff_nonempty (new old : DataFrame) (d : DiffResult)
    (h : compare_tables new (some old) = .ok d)
    (hPN : "Project Name" ∈ outputColumns new) :
    (d.added.isSome = true ↔ (addedFrame new old).rows ≠ [])
      ∧ (d.removed.isSome = true ↔ (removedFrame new old).rows ≠ []) := by
  obtain ⟨old', hst, hd⟩ := compare_tables_ok_shape new (some old) d h
  have hoo : old' = old := by
    injection hst with h'
    exact h'.symm
  rw [hoo] at hd
  subst hd
  constructor
  · show (if (addedFrame new old).isEmpty then (none : Option DataFrame)
        else some (addedFrame new old)).isSome = true
      ↔ (addedFrame new old).rows ≠ []
    by_cases hA : (addedFrame new old).rows = []
    · rw [if_pos (by
        rw [isEmpty_of_cols_nonempty (addedFrame new old) "Project Name" hPN,
          hA]
        rfl)]
      simp [hA]
    · rw [if_neg (by
        rw [isEmpty_of_cols_nonempty (addedFrame new old) "Project Name" hPN]
        simp [List.isEmpty_iff, hA])]
      simp [hA]
  · show (if (removedFrame new old).isEmpty then (none : Option DataFrame)
        else some (removedFrame new old)).isSome = true
      ↔ (removedFrame new old).rows ≠ []
    by_cases hR : (removedFrame new old).rows = []
    · rw [if_pos (by
        rw [isEmpty_of_cols_nonempty (removedFrame new old)
          "Project Name" hPN, hR]
        rfl)]
      simp [hR]
    · rw [if_neg (by
        rw [isEmpty_of_cols_nonempty (removedFrame new old)
          "Project Name" hPN]
        simp [List.isEmpty_iff, hR])]
      simp [hR]

/-- C9, witness at the spec's §8 example. -/
theorem c9_keys_present_iff_nonempty_witness :
    ((DiffResult.mk (some ⟨["Project Name"], [[Value.str "Z"]]⟩)
        (some ⟨["Project Name"], [[Value.str "Y"]]⟩)).added.isSome = true
      ↔ (addedFrame sampleNew sampleOld).rows ≠ [])
    ∧ ((DiffResult.mk (some ⟨["Project Name"], [[Value.str "Z"]]⟩)
        (some ⟨["Project Name"], [[Value.str "Y"]]⟩)).removed.isSome = true
      ↔ (removedFrame sampleNew sampleOld).rows ≠ []) :=
  c9_keys_present_iff_nonempty sampleNew sampleOld _ (by rfl) (by decide)

/-- C10: whenever `compare_tables` succeeds, any table under `Added` or
`Removed` carries exactly the new snapshot's columns with the `hashid`
fingerprint column removed. -/
theorem c10_outputs_drop_hashid (new : DataFrame) (st : Store)
    (d : DiffResult) (h : compare_tables new st = .ok d) :
    (∀ f, d.added = some f → f.cols = new.cols.erase "hashid")
      ∧ (∀ f, d.removed = some f → f.cols = new.cols.erase "hashid") := by
  obtain ⟨old, -, hd⟩ := compare_tables_ok_shape new st d h
  subst hd
  constructor
  · intro f hf
    have hf' : (if (addedFrame new old).isEmpty then (none : Option DataFrame)
        else some (addedFrame new old)) = some f := hf
    by_cases hA : (addedFrame new old).isEmpty
    · rw [if_pos hA] at hf'
      cases hf'
    · rw [if_neg hA] at hf'
      injection hf' with hf''
      rw [← hf'']
      rfl
  · intro f hf
    have hf' : (if (removedFrame new old).isEmpty
        then (none : Option DataFrame)
        else some (removedFrame new old)) = some f := hf
    by_cases hR : (removedFrame new old).isEmpty
    · rw [if_pos hR] at hf'
      cases hf'
    · rw [if_neg hR] at hf'
      injection hf' with hf''
      rw [← hf'']
      rfl

/-- C10, witness at the spec's §8 example. -/
theorem c10_outputs_drop_hashid_witness :
    (∀ f, (DiffResult.mk (some ⟨["Project Name"], [[Value.str "Z"]]⟩)
        (some ⟨["Project Name"], [[Value.str "Y"]]⟩)).added = some f →
      f.cols = sampleNew.cols.erase "hashid")
    ∧ (∀ f, (DiffResult.mk (some ⟨["Project Name"], [[Value.str "Z"]]⟩)
        (some ⟨["Project Name"], [[Value.str "Y"]]⟩)).removed = some f →
      f.cols = sampleNew.cols.erase "hashid") :=
  c10_outputs_drop_hashid sampleNew (some sampleOld) _ (by rfl)

/-- The `dropDupsSeen` computes the spec's first-seen fold, shifted by any
accumulator agreeing with `seen`. -/
theorem dropDupsSeen_foldl (l : List (List Value)) :
    ∀ (acc seen : List (List Value)), (∀ x, x ∈ seen ↔ x ∈ acc) →
      l.foldl (fun acc k => if k ∈ acc then acc else acc ++ [k]) acc
        = acc ++ dropDupsSeen seen l := by
  induction l with
  | nil =>
    intro acc seen _
    simp [dropDupsSeen]
  | cons k ks ih =>
    intro acc seen h
    rw [List.foldl_cons]
    show _ = acc ++ dropDupsSeen seen (k :: ks)
    rw [dropDupsSeen]
    by_cases hk : k ∈ acc
    · rw [if_pos hk, if_pos ((h k).mpr hk)]
      exact ih acc seen h
    · rw [if_neg hk, if_neg (fun hm => hk ((h k).mp hm))]
      rw [ih (acc ++ [k]) (k :: seen) ?hinv, List.append_assoc]
      · rfl
      case hinv =>
        intro x
        simp only [List.mem_cons, List.mem_append, List.mem_singleton]
        rw [h x]
        tauto

/-- The source's `drop_duplicates` equals the spec's first-seen fold. -/
theorem dropDups_eq_specDedup (l : List (List Value)) :
    dropDupsSeen [] l = specDedup l := by
  unfold specDedup
  rw [dropDupsSeen_foldl l [] [] (fun x => by simp)]
  rfl

/-- The `dropDupsSeen` yields distinct entries, none of them already seen. -/
theorem dropDupsSeen_nodup (l : List (List Value)) :
    ∀ seen, (dropDupsSeen seen l).Nodup
      ∧ ∀ x ∈ dropDupsSeen seen l, x ∉ seen := by
  induction l with
  | nil =>
    intro seen
    exact ⟨List.nodup_nil, by simp [dropDupsSeen]⟩
  | cons k ks ih =>
    intro seen
    rw [dropDupsSeen]
    by_cases hk : k ∈ seen
    · rw [if_pos hk]
      exact ih seen
    · rw [if_neg hk]
      obtain ⟨hnd, hnotin⟩ := ih (k :: seen)
      refine ⟨?_, ?_⟩
      · rw [List.nodup_cons]
        exact ⟨fun hmem => hnotin k hmem (List.mem_cons_self k seen), hnd⟩
      · intro x hx
        rcases List.mem_cons.mp hx with rfl | hx'
        · exact hk
        · exact fun hxs => hnotin x hx' (List.mem_cons_of_mem k hxs)

/-- C8 counterexample: two records agreeing on the five identity columns
but differing in `Quote Status` yield two groups, and each group's detail
table contains the projections of both records — including the record whose
`Quote Status` does not match that group's key — because the source filters
details on five of the seven group columns. -/
theorem c8_status_groups_cex :
    summaryBlocks statusDf
      = [([Value.str "R", Value.str "P", Value.str "C", Value.str "S",
            Value.str "Q", Value.str "D", Value.str "approved"],
          [[Value.str "G1", Value.str "sku1", Value.int 1, Value.int 100],
           [Value.str "G2", Value.str "sku2", Value.int 2, Value.int 200]]),
         ([Value.str "R", Value.str "P", Value.str "C", Value.str "S",
            Value.str "Q", Value.str "D", Value.str "pending"],
          [[Value.str "G1", Value.str "sku1", Value.int 1, Value.int 100],
           [Value.str "G2", Value.str "sku2", Value.int 2, Value.int 200]])]
      := rfl

/-- C8 amended: the formatter emits the distinct seven-column group keys in
first-seen order (the spec's left fold), renders each distinct group
exactly once, and under each group emits the input records matching the
group on the five identity columns only — `Create Date` and `Quote Status`
belong to the group key but not to the detail match — projected onto the
detail columns in original row order; the rendered report is the
concatenation of header and detail table over these blocks. -/
theorem c8_formatter_characterization (df : DataFrame) :
    (summaryBlocks df
        = (specDedup (df.rows.map fun r =>
            projRow df.cols r project_col_names)).map
            fun g => (g, (df.rows.filter fun r =>
              matchesGroup df.cols g r).map
                fun r => projRow df.cols r detail_col_names))
      ∧ ((summaryBlocks df).map Prod.fst).Nodup
      ∧ format_to_html_summary df
          = String.join ((summaryBlocks df).map
              fun b => projectHtml b.1 ++ tableHtml detail_col_names b.2
                ++ "<br>") := by
  refine ⟨?_, ?_, rfl⟩
  · unfold summaryBlocks
    rw [dropDups_eq_specDedup]
  · unfold summaryBlocks
    rw [List.map_map]
    have : (Prod.fst ∘ fun g => ((g : List Value),
        (df.rows.filter fun r => matchesGroup df.cols g r).map
          fun r => projRow df.cols r detail_col_names)) = id := rfl
    rw [this, List.map_id]
    exact (dropDupsSeen_nodup _ []).1

end Friedrich
